import Mathlib

/-!
Shallow embedding of the paper-trading simulator in src/main.py: the global
portfolio state, admission control (the signal-triggered buy in handle_input
and the test-mode /buy and /sell commands), the tiered profit-taking engine
of monitor_positions_automatic, and the numeric magnitude normalizer
(format_number together with the replace-based re-parse the monitor uses).
Money amounts and market caps are modelled as rationals; the source uses
Python floats.
-/

namespace Bot

/-- A magnitude suffix as produced by format_number: no suffix, k for
thousands, or M for millions. -/
inductive Suffix
  | plain
  | k
  | M
deriving DecidableEq

/-- Numeric multiplier of a magnitude suffix. -/
def suffixMult : Suffix → ℚ
  | Suffix.plain => 1
  | Suffix.k => 1000
  | Suffix.M => 1000000

/-- A market-cap string as it flows through the program: the sentinel
string N/A, a well-formed magnitude number (mantissa plus optional suffix),
or an unparseable string. -/
inductive MetricStr
  | na
  | num (mantissa : ℚ) (suffix : Suffix)
  | malformed (s : String)
deriving DecidableEq

/-- Rounding to one decimal place, as the .1f format specifier in
format_number does before the digits are printed. -/
def round1 (x : ℚ) : ℚ := ((round (10 * x) : ℤ) : ℚ) / 10

/-- Embeds format_number (src/main.py lines 26-35) on numeric input: one
decimal place with suffix M for n at least 1_000_000, k for n at least
1_000, else the plain number.  On the sentinel N/A the source returns the
input unchanged; that branch is the identity and is not needed here. -/
def format_number (n : ℚ) : MetricStr :=
  if n ≥ 1000000 then MetricStr.num (round1 (n / 1000000)) Suffix.M
  else if n ≥ 1000 then MetricStr.num (round1 (n / 1000)) Suffix.k
  else MetricStr.num n Suffix.plain

/-- Embeds the conversion float of s.replace k -> e3, M -> e6 used by
monitor_positions_automatic (lines 257 and 263): a well-formed magnitude
string parses to its mantissa times the suffix multiplier; anything else,
including the sentinel N/A, raises ValueError in the source, modelled as
none. -/
def parseAuto : MetricStr → Option ℚ
  | MetricStr.na => none
  | MetricStr.num m s => some (m * suffixMult s)
  | MetricStr.malformed _ => none

/-- One open position, mirroring the dicts stored in test_state positions:
a signal buy stores buy_market_cap, amount, sold and ticker (line 149); the
test-mode /buy stores buy_price, amount and sold (lines 192-196).  A key a
given dict does not carry is modelled as none. -/
structure Position where
  buy_market_cap : Option MetricStr
  buy_price : Option ℚ
  amount : ℚ
  sold : ℚ
  ticker : Option String
deriving DecidableEq

/-- The global test_state dict (lines 65-73).  Positions are kept as an
insertion-ordered association list, matching Python dict iteration order. -/
structure TestState where
  running : Bool
  start_sol : ℚ
  current_sol : ℚ
  buy_amount : ℚ
  in_positions : ℚ
  positions : List (String × Position)
  last_buy_time : ℚ
deriving DecidableEq

/-- Dict lookup on the positions association list. -/
def lookupKey (k : String) : List (String × Position) → Option Position
  | [] => none
  | kv :: t => if kv.1 = k then some kv.2 else lookupKey k t

/-- Dict assignment: replace the entry for the key, or append a new one. -/
def setKey (k : String) (v : Position) : List (String × Position) → List (String × Position)
  | [] => [(k, v)]
  | kv :: t => if kv.1 = k then (k, v) :: t else kv :: setKey k v t

/-- Dict pop / del: remove every entry with the key. -/
def eraseKey (k : String) : List (String × Position) → List (String × Position)
  | [] => []
  | kv :: t => if kv.1 = k then eraseKey k t else kv :: eraseKey k t

/-- Sum of unsold capital over all open positions, the quantity the spec
asserts locked_in_positions to track. -/
def sumPos (l : List (String × Position)) : ℚ :=
  (l.map (fun kv => kv.2.amount - kv.2.sold)).sum

/-- Keys of the positions list are pairwise distinct, as they are for a
Python dict. -/
def nodupKeys (l : List (String × Position)) : Prop :=
  l.Pairwise (fun a b => a.1 ≠ b.1)

/-- The three profit-taking tiers of monitor_positions_automatic
(lines 275-280), in the order the source tests them: 300 percent, 500
percent, 1000 percent. -/
inductive Tier
  | t3
  | t5
  | t10
deriving DecidableEq

/-- The sell_percentage the source assigns in each branch (lines 276, 278,
280): a flat one half for the 3x tier, a flat one quarter for the 5x tier,
and all remaining capital for the 10x tier. -/
def tierPercentage (t : Tier) (sold amount : ℚ) : ℚ :=
  match t with
  | Tier.t3 => 1/2
  | Tier.t5 => 1/4
  | Tier.t10 => 1 - sold / amount

/-- Target cumulative-sold fraction the spec associates with each tier. -/
def tierTarget : Tier → ℚ
  | Tier.t3 => 1/2
  | Tier.t5 => 3/4
  | Tier.t10 => 1

/-- The first-matching tier test of lines 275-282, in source order: the 3x
condition is tested first, then 5x, then 10x; none means the final else
branch, continue with no action. -/
def firedTier (growth sold amount : ℚ) : Option Tier :=
  if growth ≥ 3 ∧ sold < amount * (1/2) then some Tier.t3
  else if growth ≥ 5 ∧ sold < amount * (3/4) then some Tier.t5
  else if growth ≥ 10 ∧ sold < amount then some Tier.t10
  else none

/-- Growth ratio of line 271: current over bought market cap, with the
divide-by-zero guard yielding 1. -/
def growthOf (bought current : ℚ) : ℚ :=
  if bought > 0 then current / bought else 1

/-- The sell_amount of line 284: initial_investment times sell_percentage. -/
def sellAmount (position : Position) (t : Tier) : ℚ :=
  position.amount * tierPercentage t position.sold position.amount

/-- Abandonment (lines 265-268): pop the position and release the unsold
capital from in_positions; the balance is untouched. -/
def abandonUpdate (st : TestState) (ca : String) (position : Position) : TestState :=
  { st with positions := eraseKey ca st.positions,
            in_positions := st.in_positions - (position.amount - position.sold) }

/-- A firing tier (lines 284-298): credit profit_sol to current_sol, release
sell_amount from in_positions, add sell_amount to the position's sold, and
delete the position when its updated sold reaches its amount. -/
def sellUpdate (st : TestState) (ca : String) (position : Position) (growth : ℚ) (t : Tier) : TestState :=
  if position.sold + sellAmount position t ≥ position.amount then
    { st with
        current_sol := st.current_sol +
          (sellAmount position t * growth - position.sold * (growth - 1)),
        in_positions := st.in_positions - sellAmount position t,
        positions := eraseKey ca st.positions }
  else
    { st with
        current_sol := st.current_sol +
          (sellAmount position t * growth - position.sold * (growth - 1)),
        in_positions := st.in_positions - sellAmount position t,
        positions := setKey ca
          { position with sold := position.sold + sellAmount position t } st.positions }

/-- One engine evaluation of a position against parsed market caps
(lines 265-298): abandonment below 50000 first, then the tier ladder. -/
def engineEval (st : TestState) (ca : String) (position : Position)
    (bought current : ℚ) : TestState :=
  if current < 50000 then abandonUpdate st ca position
  else
    (firedTier (growthOf bought current) position.sold position.amount).elim st
      (fun t => sellUpdate st ca position (growthOf bought current) t)

/-- The remaining-percentage reported in the partial-sell notification
(line 292). -/
def remainingPercentage (sold amount : ℚ) : ℤ :=
  if sold < amount then round ((1 - sold / amount) * 100) else 0

/-- One pass of the monitor body (lines 255-303) over a snapshot of the
positions items, threading the state and recording which positions reached
the engine evaluation.  The TOKEN placeholder is skipped; a stored
buy_market_cap that does not parse raises at line 257, outside the inner
try, so the outer handler ends the pass for the remaining items; a fetched
N/A is skipped by the explicit check of line 259; a fetched string that
fails the conversion of line 263 is caught by the inner handler and only
that position is skipped. -/
def runPass (st : TestState) (items : List (String × Position))
    (f : String → MetricStr × String) : TestState × List String :=
  match items with
  | [] => (st, [])
  | (ca, position) :: rest =>
    if ca = "TOKEN" then runPass st rest f
    else
      (position.buy_market_cap.bind parseAuto).elim (st, [])
        (fun bought =>
          if (f ca).1 = MetricStr.na then runPass st rest f
          else
            (parseAuto (f ca).1).elim (runPass st rest f)
              (fun current =>
                let r := runPass (engineEval st ca position bought current) rest f
                (r.1, ca :: r.2)))

/-- The engine applied to one position over a sequence of rounds, each
round supplying the parsed bought and current market caps; a round in which
the position no longer exists does nothing to it. -/
def engineRounds (st : TestState) (ca : String) : List (ℚ × ℚ) → TestState
  | [] => st
  | ob :: rest =>
      engineRounds
        ((lookupKey ca st.positions).elim st
          (fun position => engineEval st ca position ob.1 ob.2))
        ca rest

/-- The signal-triggered buy of handle_input (lines 143-156), after the
phrase match and the processed_contracts deduplication have passed: admission
is only the balance check; a one percent fee is deducted from the position
size, the full buy_amount leaves the balance, and the fetched market cap and
ticker are stored verbatim.   Note the source neither reads nor writes
last_buy_time on this path. -/
def handleInputBuy (st : TestState) (ca : String) (market_cap : MetricStr)
    (ticker : String) : TestState :=
  if st.running then
    if st.buy_amount ≤ st.current_sol then
      { st with
          current_sol := st.current_sol - st.buy_amount,
          in_positions := st.in_positions + (st.buy_amount - st.buy_amount * (1/100)),
          positions := setKey ca
            { buy_market_cap := some market_cap,
              buy_price := none,
              amount := st.buy_amount - st.buy_amount * (1/100),
              sold := 0,
              ticker := some ticker } st.positions }
    else st
  else st

/-- The dedup wrapper around the signal buy: a contract already in
processed_contracts is ignored (lines 140-141 and 161-162). -/
def handleInputSignal (processed : List String) (st : TestState) (ca : String)
    (market_cap : MetricStr) (ticker : String) : List String × TestState :=
  if ca ∈ processed then (processed, st)
  else (ca :: processed, handleInputBuy st ca market_cap ticker)

/-- The test-mode /buy command (lines 170-204): rate limited to one buy per
time unit via last_buy_time, balance checked against buy_amount, and the
simulated TOKEN position grows exponentially; the full buy_amount leaves the
balance while the grown token_amount enters in_positions.  The one percent
fee of lines 180-181 only feeds the reply message and the growth display,
not the state. -/
def buyCmd (st : TestState) (current_time : ℚ) : TestState :=
  if st.running then
    if current_time - st.last_buy_time < 1 then st
    else
      if st.buy_amount ≤ st.current_sol then
        let token_amount : ℚ :=
          (lookupKey "TOKEN" st.positions).elim (st.buy_amount * 3)
            (fun p =>
              p.amount * (1 + (if p.amount < 500 then (300 : ℚ) else 1000) / 100))
        { st with
            current_sol := st.current_sol - st.buy_amount,
            in_positions := st.in_positions + token_amount,
            positions := setKey "TOKEN"
              { buy_market_cap := none,
                buy_price := some 1,
                amount := token_amount,
                sold := 0,
                ticker := none } st.positions,
            last_buy_time := current_time }
      else st
  else st

/-- The test-mode /sell command (lines 206-218): liquidate the remaining
TOKEN capital at face value. -/
def sellCmd (st : TestState) : TestState :=
  if st.running then
    (lookupKey "TOKEN" st.positions).elim st
      (fun p =>
        { st with
            current_sol := st.current_sol + (p.amount - p.sold),
            in_positions := st.in_positions - (p.amount - p.sold),
            positions := eraseKey "TOKEN" st.positions })
  else st


/-! Association-list and engine helper lemmas. -/

theorem lookupKey_setKey_self (k : String) (v : Position) (l : List (String × Position)) :
    lookupKey k (setKey k v l) = some v := by
  induction l with
  | nil => simp [setKey, lookupKey]
  | cons kv t ih =>
    by_cases h : kv.1 = k
    · simp [setKey, h, lookupKey]
    · simp [setKey, h, lookupKey, ih]

theorem lookupKey_eraseKey_self (k : String) (l : List (String × Position)) :
    lookupKey k (eraseKey k l) = none := by
  induction l with
  | nil => rfl
  | cons kv t ih =>
    by_cases h : kv.1 = k
    · simp [eraseKey, h, ih]
    · simp [eraseKey, h, lookupKey, ih]

theorem firedTier_t3_inv (g s a : ℚ) (h : firedTier g s a = some Tier.t3) :
    g ≥ 3 ∧ s < a * (1/2) := by
  unfold firedTier at h
  split_ifs at h with h1 h2 h3
  · exact h1
  all_goals simp at h

theorem firedTier_t5_inv (g s a : ℚ) (h : firedTier g s a = some Tier.t5) :
    ¬(g ≥ 3 ∧ s < a * (1/2)) ∧ g ≥ 5 ∧ s < a * (3/4) := by
  unfold firedTier at h
  split_ifs at h with h1 h2 h3
  · simp at h
  · exact ⟨h1, h2⟩
  all_goals simp at h

theorem firedTier_t10_inv (g s a : ℚ) (h : firedTier g s a = some Tier.t10) :
    ¬(g ≥ 3 ∧ s < a * (1/2)) ∧ ¬(g ≥ 5 ∧ s < a * (3/4)) ∧ g ≥ 10 ∧ s < a := by
  unfold firedTier at h
  split_ifs at h with h1 h2 h3
  · simp at h
  · simp at h
  · exact ⟨h1, h2, h3⟩

theorem firedTier_sold_lt (g s a : ℚ) (t : Tier) (h : firedTier g s a = some t) :
    s < a * tierTarget t := by
  cases t with
  | t3 => simpa [tierTarget] using (firedTier_t3_inv g s a h).2
  | t5 => simpa [tierTarget] using (firedTier_t5_inv g s a h).2.2
  | t10 => simpa [tierTarget] using (firedTier_t10_inv g s a h).2.2.2

theorem sellAmount_t10 (p : Position) (ha : p.amount ≠ 0) :
    sellAmount p Tier.t10 = p.amount - p.sold := by
  simp only [sellAmount, tierPercentage]
  field_simp

theorem sellAmount_nonneg (p : Position) (t : Tier) (g : ℚ)
    (h0 : 0 ≤ p.sold) (h1 : p.sold ≤ p.amount)
    (hf : firedTier g p.sold p.amount = some t) : 0 ≤ sellAmount p t := by
  have ha : 0 ≤ p.amount := h0.trans h1
  cases t with
  | t3 => simp only [sellAmount, tierPercentage]; nlinarith
  | t5 => simp only [sellAmount, tierPercentage]; nlinarith
  | t10 =>
    have hs : p.sold < p.amount := (firedTier_t10_inv _ _ _ hf).2.2.2
    have hapos : 0 < p.amount := lt_of_le_of_lt h0 hs
    have hdiv : p.sold / p.amount ≤ 1 := by
      rw [div_le_one hapos]; exact le_of_lt hs
    simp only [sellAmount, tierPercentage]
    nlinarith

theorem sellUpdate_running (st : TestState) (ca : String) (p : Position) (g : ℚ) (t : Tier) :
    (sellUpdate st ca p g t).running = st.running := by
  unfold sellUpdate
  split_ifs <;> rfl

theorem engineEval_running (st : TestState) (ca : String) (p : Position) (b c : ℚ) :
    (engineEval st ca p b c).running = st.running := by
  unfold engineEval
  split_ifs with h
  · rfl
  · rcases hft : firedTier (growthOf b c) p.sold p.amount with _ | t
    · rfl
    · exact sellUpdate_running st ca p (growthOf b c) t

/-! Claim C3: buy admission in handle_input. -/

/-- C3: a signal buy that passes admission control (buy_amount at most
current_sol, session running) deducts a one percent fee from the buy unit,
debits the full buy unit from current_sol, credits the net amount to
in_positions, and creates the position with amount equal to the net amount
and sold equal to zero. -/
theorem C3_buy_admission (st : TestState) (ca : String) (m : MetricStr) (tk : String)
    (hrun : st.running = true) (hbal : st.buy_amount ≤ st.current_sol) :
    (handleInputBuy st ca m tk).current_sol = st.current_sol - st.buy_amount ∧
    (handleInputBuy st ca m tk).in_positions
      = st.in_positions + (st.buy_amount - st.buy_amount * (1/100)) ∧
    lookupKey ca (handleInputBuy st ca m tk).positions
      = some { buy_market_cap := some m, buy_price := none,
               amount := st.buy_amount - st.buy_amount * (1/100), sold := 0,
               ticker := some tk } := by
  refine ⟨?_, ?_, ?_⟩ <;>
    simp [handleInputBuy, hrun, hbal, lookupKey_setKey_self]

/-- A fresh session with balance 100 and buy unit 10, scenario A of the spec. -/
def st100 : TestState :=
  { running := true, start_sol := 100, current_sol := 100, buy_amount := 10,
    in_positions := 0, positions := [], last_buy_time := 0 }

/-- C3 witness: scenario A concretely, balance 100 and buy unit 10 give
balance 90 and a position of amount 9.9 with sold 0. -/
theorem C3_buy_admission_witness :
    st100.running = true ∧ st100.buy_amount ≤ st100.current_sol ∧
    ((handleInputBuy st100 "A" (MetricStr.num 50 Suffix.k) "T").current_sol
        = st100.current_sol - st100.buy_amount ∧
     (handleInputBuy st100 "A" (MetricStr.num 50 Suffix.k) "T").in_positions
        = st100.in_positions + (st100.buy_amount - st100.buy_amount * (1/100)) ∧
     lookupKey "A" (handleInputBuy st100 "A" (MetricStr.num 50 Suffix.k) "T").positions
        = some { buy_market_cap := some (MetricStr.num 50 Suffix.k), buy_price := none,
                 amount := st100.buy_amount - st100.buy_amount * (1/100), sold := 0,
                 ticker := some "T" }) ∧
    (handleInputBuy st100 "A" (MetricStr.num 50 Suffix.k) "T").current_sol = 90 ∧
    st100.buy_amount - st100.buy_amount * (1/100) = 99/10 :=
  ⟨rfl, by norm_num [st100],
   C3_buy_admission st100 "A" (MetricStr.num 50 Suffix.k) "T" rfl (by norm_num [st100]),
   by norm_num [st100, handleInputBuy], by norm_num [st100]⟩

/-! Claim C4: abandonment below 50000. -/

/-- C4: when the engine sees a parsed current metric below 50000 it removes
the position, releases amount minus sold from in_positions, and leaves
current_sol untouched, for every sold state. -/
theorem C4_abandonment (st : TestState) (ca : String) (p : Position) (b c : ℚ)
    (h : c < 50000) :
    lookupKey ca (engineEval st ca p b c).positions = none ∧
    (engineEval st ca p b c).in_positions = st.in_positions - (p.amount - p.sold) ∧
    (engineEval st ca p b c).current_sol = st.current_sol := by
  refine ⟨?_, ?_, ?_⟩ <;>
    simp [engineEval, abandonUpdate, h, lookupKey_eraseKey_self]

/-- A position bought at reference 50k with a partial sell already recorded,
for scenario D. -/
def pC4 : Position :=
  { buy_market_cap := some (MetricStr.num 50 Suffix.k), buy_price := none,
    amount := 100, sold := 30, ticker := some "T" }

/-- The portfolio holding pC4. -/
def stC4 : TestState :=
  { running := true, start_sol := 100, current_sol := 20, buy_amount := 10,
    in_positions := 70, positions := [("D", pC4)], last_buy_time := 0 }

/-- C4 witness: scenario D, reference 50k and new metric 40k removes the
position, writes off amount minus sold, and leaves the balance alone. -/
theorem C4_abandonment_witness :
    (40000 : ℚ) < 50000 ∧
    (lookupKey "D" (engineEval stC4 "D" pC4 50000 40000).positions = none ∧
     (engineEval stC4 "D" pC4 50000 40000).in_positions
        = stC4.in_positions - (pC4.amount - pC4.sold) ∧
     (engineEval stC4 "D" pC4 50000 40000).current_sol = stC4.current_sol) :=
  ⟨by norm_num, C4_abandonment stC4 "D" pC4 50000 40000 (by norm_num)⟩

/-! Claim C10: a buy with an unavailable market snapshot. -/

/-- C10: when the market snapshot is unavailable the fetch returns the
sentinel pair, and the signal buy still goes through: the balance is
debited, in_positions credited, and the position stores the sentinel as
buy_market_cap and ticker. -/
theorem C10_unavailable_buy (st : TestState) (ca : String)
    (hrun : st.running = true) (hbal : st.buy_amount ≤ st.current_sol) :
    (handleInputBuy st ca MetricStr.na "N/A").current_sol
      = st.current_sol - st.buy_amount ∧
    (handleInputBuy st ca MetricStr.na "N/A").in_positions
      = st.in_positions + (st.buy_amount - st.buy_amount * (1/100)) ∧
    lookupKey ca (handleInputBuy st ca MetricStr.na "N/A").positions
      = some { buy_market_cap := some MetricStr.na, buy_price := none,
               amount := st.buy_amount - st.buy_amount * (1/100), sold := 0,
               ticker := some "N/A" } := by
  refine ⟨?_, ?_, ?_⟩ <;>
    simp [handleInputBuy, hrun, hbal, lookupKey_setKey_self]

/-- C10 witness: on the fresh session the buy succeeds with sentinel market
data and mutates the balances. -/
theorem C10_unavailable_buy_witness :
    st100.running = true ∧ st100.buy_amount ≤ st100.current_sol ∧
    ((handleInputBuy st100 "B" MetricStr.na "N/A").current_sol
        = st100.current_sol - st100.buy_amount ∧
     (handleInputBuy st100 "B" MetricStr.na "N/A").in_positions
        = st100.in_positions + (st100.buy_amount - st100.buy_amount * (1/100)) ∧
     lookupKey "B" (handleInputBuy st100 "B" MetricStr.na "N/A").positions
        = some { buy_market_cap := some MetricStr.na, buy_price := none,
                 amount := st100.buy_amount - st100.buy_amount * (1/100), sold := 0,
                 ticker := some "N/A" }) :=
  ⟨rfl, by norm_num [st100], C10_unavailable_buy st100 "B" rfl (by norm_num [st100])⟩

/-! Claim C9: the normalizer round trip. -/

/-- C9: for every positive n, re-parsing the formatted magnitude string
yields a value within one part in ten of n: formatting rounds the mantissa
to one decimal place, so the absolute error is at most 50 in the k range and
at most 50000 in the M range, both below a tenth of n. -/
theorem C9_round_trip (n : ℚ) (hn : 0 < n) :
    (parseAuto (format_number n)).isSome = true ∧
    |(parseAuto (format_number n)).getD 0 - n| ≤ n / 10 := by
  unfold format_number
  split_ifs with h1 h2
  · refine ⟨rfl, ?_⟩
    simp only [parseAuto, Option.getD_some, suffixMult, round1]
    have hr := abs_sub_round ((10 : ℚ) * (n / 1000000))
    have key : ((round ((10 : ℚ) * (n / 1000000)) : ℤ) : ℚ) / 10 * 1000000 - n
        = -(100000 * ((10 : ℚ) * (n / 1000000)
            - ((round ((10 : ℚ) * (n / 1000000)) : ℤ) : ℚ))) := by
      ring
    rw [key, abs_neg, abs_mul, abs_of_nonneg (by norm_num : (0:ℚ) ≤ 100000)]
    nlinarith [hr]
  · refine ⟨rfl, ?_⟩
    simp only [parseAuto, Option.getD_some, suffixMult, round1]
    have hr := abs_sub_round ((10 : ℚ) * (n / 1000))
    have key : ((round ((10 : ℚ) * (n / 1000)) : ℤ) : ℚ) / 10 * 1000 - n
        = -(100 * ((10 : ℚ) * (n / 1000)
            - ((round ((10 : ℚ) * (n / 1000)) : ℤ) : ℚ))) := by
      ring
    rw [key, abs_neg, abs_mul, abs_of_nonneg (by norm_num : (0:ℚ) ≤ 100)]
    nlinarith [hr]
  · refine ⟨rfl, ?_⟩
    simp only [parseAuto, Option.getD_some, suffixMult, mul_one, sub_self, abs_zero]
    positivity

/-- C9 witness: the magnitude 45300 formats to 45.3k and parses back exactly,
well within the bound. -/
theorem C9_round_trip_witness :
    (0 : ℚ) < 45300 ∧
    ((parseAuto (format_number 45300)).isSome = true ∧
     |(parseAuto (format_number (45300 : ℚ))).getD 0 - 45300| ≤ 45300 / 10) :=
  ⟨by norm_num, C9_round_trip 45300 (by norm_num)⟩

/-! Claim C1: tier evaluation order. -/

/-- The position of the claimed scenario: amount 100, half already sold. -/
def pC1 : Position :=
  { buy_market_cap := some (MetricStr.num 50 Suffix.k), buy_price := none,
    amount := 100, sold := 50, ticker := some "T" }

/-- A portfolio holding pC1. -/
def stC1 : TestState :=
  { running := true, start_sol := 100, current_sol := 520, buy_amount := 10,
    in_positions := 50, positions := [("A", pC1)], last_buy_time := 0 }

/-- C1 counterexample: at amount 100, sold 50, growth 10 (reference 50k,
current 500k) the source fires the 5x branch first, selling 25 and keeping
the position at sold 75 — not selling the remaining 50 and removing it as
the claim states, because lines 275-282 test 3x, then 5x, then 10x. -/
theorem C1_counterexample :
    lookupKey "A" (engineEval stC1 "A" pC1 50000 500000).positions
      = some { buy_market_cap := some (MetricStr.num 50 Suffix.k), buy_price := none,
               amount := 100, sold := 75, ticker := some "T" } ∧
    (engineEval stC1 "A" pC1 50000 500000).in_positions = stC1.in_positions - 25 ∧
    (25 : ℚ) ≠ pC1.amount - pC1.sold := by
  refine ⟨?_, ?_, ?_⟩ <;>
    norm_num [stC1, pC1, engineEval, abandonUpdate, sellUpdate, firedTier,
      growthOf, sellAmount, tierPercentage, lookupKey, setKey, eraseKey, Option.elim]

/-- C1 amended: the tiers are tested in the order 3x, 5x, 10x (first match
wins), so a position with growth at least 10 and sold short of amount sells
exactly amount minus sold and is removed only once at least three quarters
of the amount has already been sold; below that the 3x or 5x branch fires
first. -/
theorem C1_tier_order_amended (st : TestState) (ca : String) (p : Position) (b c : ℚ)
    (hb : 0 < b) (hc : ¬ c < 50000) (hg : 10 ≤ c / b)
    (h75 : p.amount * (3/4) ≤ p.sold) (hlt : p.sold < p.amount) (h0 : 0 ≤ p.sold) :
    lookupKey ca (engineEval st ca p b c).positions = none ∧
    (engineEval st ca p b c).in_positions = st.in_positions - (p.amount - p.sold) ∧
    (engineEval st ca p b c).current_sol
      = st.current_sol + ((p.amount - p.sold) * (c / b) - p.sold * (c / b - 1)) := by
  have hapos : 0 < p.amount := lt_of_le_of_lt h0 hlt
  have hgrow : growthOf b c = c / b := by simp [growthOf, hb]
  have hn3 : ¬ (c / b ≥ 3 ∧ p.sold < p.amount * (1/2)) := by
    rintro ⟨-, h2⟩; linarith
  have hn5 : ¬ (c / b ≥ 5 ∧ p.sold < p.amount * (3/4)) := by
    rintro ⟨-, h2⟩; linarith
  have hf : firedTier (c / b) p.sold p.amount = some Tier.t10 := by
    unfold firedTier
    rw [if_neg hn3, if_neg hn5, if_pos ⟨hg, hlt⟩]
  have hsell : sellAmount p Tier.t10 = p.amount - p.sold :=
    sellAmount_t10 p (ne_of_gt hapos)
  have hge : p.sold + sellAmount p Tier.t10 ≥ p.amount := by rw [hsell]; linarith
  have heval : engineEval st ca p b c = sellUpdate st ca p (c / b) Tier.t10 := by
    rw [engineEval, if_neg hc, hgrow, hf]
    rfl
  rw [heval, sellUpdate, if_pos hge, hsell]
  exact ⟨lookupKey_eraseKey_self ca st.positions, rfl, rfl⟩

/-- The position for the amended C1 witness: three quarters already sold. -/
def pC1w : Position :=
  { buy_market_cap := some (MetricStr.num 50 Suffix.k), buy_price := none,
    amount := 100, sold := 75, ticker := some "T" }

/-- A portfolio holding pC1w. -/
def stC1w : TestState :=
  { running := true, start_sol := 100, current_sol := 320, buy_amount := 10,
    in_positions := 25, positions := [("A", pC1w)], last_buy_time := 0 }

/-- C1 amended witness: at sold 75 of 100 and growth 10 the 10x branch does
fire, sells the remaining 25 and removes the position. -/
theorem C1_tier_order_amended_witness :
    (0 : ℚ) < 50000 ∧ ¬ (500000 : ℚ) < 50000 ∧ (10 : ℚ) ≤ 500000 / 50000 ∧
    pC1w.amount * (3/4) ≤ pC1w.sold ∧ pC1w.sold < pC1w.amount ∧ (0 : ℚ) ≤ pC1w.sold ∧
    (lookupKey "A" (engineEval stC1w "A" pC1w 50000 500000).positions = none ∧
     (engineEval stC1w "A" pC1w 50000 500000).in_positions
        = stC1w.in_positions - (pC1w.amount - pC1w.sold) ∧
     (engineEval stC1w "A" pC1w 50000 500000).current_sol
        = stC1w.current_sol
            + ((pC1w.amount - pC1w.sold) * (500000 / 50000)
                - pC1w.sold * (500000 / 50000 - 1))) :=
  ⟨by norm_num, by norm_num, by norm_num, by norm_num [pC1w], by norm_num [pC1w],
   by norm_num [pC1w],
   C1_tier_order_amended stC1w "A" pC1w 50000 500000 (by norm_num) (by norm_num)
     (by norm_num) (by norm_num [pC1w]) (by norm_num [pC1w]) (by norm_num [pC1w])⟩

/-! Claim C2: the firing-tier update. -/

/-- C2: on every position the engine itself can produce (a buy creates
sold 0, the 3x branch moves sold to half the amount, the 5x branch to three
quarters, the 10x branch liquidates), a firing tier sells exactly the
incremental delta amount times target fraction minus sold, credits
profit equal to sell_amount times growth minus sold times growth minus one,
debits in_positions by sell_amount, and adds sell_amount to sold, keeping
the position whenever the target stays below the full amount. -/
theorem C2_sell_update (st : TestState) (ca : String) (p : Position) (b c : ℚ) (t : Tier)
    (hc : ¬ c < 50000) (hb : 0 < b) (ha : 0 ≤ p.amount)
    (hreach : p.sold = 0 ∨ p.sold = p.amount * (1/2) ∨ p.sold = p.amount * (3/4))
    (hf : firedTier (c / b) p.sold p.amount = some t) :
    sellAmount p t = p.amount * tierTarget t - p.sold ∧
    (engineEval st ca p b c).current_sol
      = st.current_sol
          + ((p.amount * tierTarget t - p.sold) * (c / b) - p.sold * (c / b - 1)) ∧
    (engineEval st ca p b c).in_positions
      = st.in_positions - (p.amount * tierTarget t - p.sold) ∧
    (p.amount * tierTarget t < p.amount →
      lookupKey ca (engineEval st ca p b c).positions
        = some { p with sold := p.sold + (p.amount * tierTarget t - p.sold) }) := by
  have hgrow : growthOf b c = c / b := by simp [growthOf, hb]
  have hsell : sellAmount p t = p.amount * tierTarget t - p.sold := by
    cases t with
    | t3 =>
      obtain ⟨hg3, hlt⟩ := firedTier_t3_inv _ _ _ hf
      rcases hreach with hs | hs | hs
      · rw [hs] at hlt ⊢
        simp only [sellAmount, tierPercentage, tierTarget]
        ring
      · exfalso; rw [hs] at hlt; linarith
      · exfalso; rw [hs] at hlt; linarith
    | t5 =>
      obtain ⟨hn3, hg5, hlt⟩ := firedTier_t5_inv _ _ _ hf
      have hs2 : ¬ p.sold < p.amount * (1/2) := fun hx => hn3 ⟨by linarith, hx⟩
      rcases hreach with hs | hs | hs
      · exfalso; rw [hs] at hs2 hlt; push_neg at hs2; linarith
      · rw [hs] at hlt ⊢
        simp only [sellAmount, tierPercentage, tierTarget]
        ring
      · exfalso; rw [hs] at hlt; linarith
    | t10 =>
      obtain ⟨hn3, hn5, hg10, hlt⟩ := firedTier_t10_inv _ _ _ hf
      have hs3 : ¬ p.sold < p.amount * (3/4) := fun hx => hn5 ⟨by linarith, hx⟩
      rcases hreach with hs | hs | hs
      · exfalso; rw [hs] at hs3 hlt; push_neg at hs3; linarith
      · exfalso; rw [hs] at hs3 hlt; push_neg at hs3; linarith
      · have hapos : 0 < p.amount := by rw [hs] at hlt; linarith
        rw [sellAmount_t10 p (ne_of_gt hapos)]
        simp only [tierTarget]
        ring
  have heval : engineEval st ca p b c = sellUpdate st ca p (c / b) t := by
    rw [engineEval, if_neg hc, hgrow, hf]
    rfl
  refine ⟨hsell, ?_, ?_, ?_⟩
  · rw [heval, sellUpdate]
    split_ifs with hge <;> rw [hsell]
  · rw [heval, sellUpdate]
    split_ifs with hge <;> rw [hsell]
  · intro hlt'
    have hslt : p.sold + sellAmount p t < p.amount := by rw [hsell]; linarith
    rw [heval, sellUpdate, if_neg (not_le.mpr hslt), hsell, lookupKey_setKey_self]

/-- The position of scenario B: amount 100, nothing sold yet. -/
def pC2 : Position :=
  { buy_market_cap := some (MetricStr.num 50 Suffix.k), buy_price := none,
    amount := 100, sold := 0, ticker := some "T" }

/-- A portfolio holding pC2. -/
def stC2 : TestState :=
  { running := true, start_sol := 100, current_sol := 90, buy_amount := 10,
    in_positions := 100, positions := [("B", pC2)], last_buy_time := 0 }

/-- C2 witness: scenario B, amount 100 and sold 0 at growth 3 sells 50,
leaves sold 50, and the reported remaining percentage is 50. -/
theorem C2_sell_update_witness :
    ¬ (150000 : ℚ) < 50000 ∧ (0 : ℚ) < 50000 ∧ (0 : ℚ) ≤ pC2.amount ∧
    pC2.sold = 0 ∧
    firedTier (150000 / 50000) pC2.sold pC2.amount = some Tier.t3 ∧
    sellAmount pC2 Tier.t3 = pC2.amount * tierTarget Tier.t3 - pC2.sold ∧
    (engineEval stC2 "B" pC2 50000 150000).current_sol
      = stC2.current_sol
          + ((pC2.amount * tierTarget Tier.t3 - pC2.sold) * (150000 / 50000)
              - pC2.sold * (150000 / 50000 - 1)) ∧
    (engineEval stC2 "B" pC2 50000 150000).in_positions
      = stC2.in_positions - (pC2.amount * tierTarget Tier.t3 - pC2.sold) ∧
    lookupKey "B" (engineEval stC2 "B" pC2 50000 150000).positions
      = some { pC2 with sold := pC2.sold + (pC2.amount * tierTarget Tier.t3 - pC2.sold) } ∧
    remainingPercentage 50 100 = 50 := by
  have h := C2_sell_update stC2 "B" pC2 50000 150000 Tier.t3
    (by norm_num) (by norm_num) (by norm_num [pC2]) (Or.inl (by norm_num [pC2]))
    (by norm_num [firedTier, pC2])
  exact ⟨by norm_num, by norm_num, by norm_num [pC2], by norm_num [pC2],
    by norm_num [firedTier, pC2], h.1, h.2.1, h.2.2.1,
    h.2.2.2 (by norm_num [pC2, tierTarget]),
    by norm_num [remainingPercentage, round_eq]⟩

/-! Claim C5: rate limiting of buys. -/

/-- A fresh running session, shared by the C5 and C7 scenarios. -/
def stFresh : TestState :=
  { running := true, start_sol := 100, current_sol := 100, buy_amount := 10,
    in_positions := 0, positions := [], last_buy_time := 0 }

/-- The state after a successful test-mode /buy at time 5. -/
def stC5 : TestState := buyCmd stFresh 5

/-- C5 counterexample: after a successful /buy at time 5 (so last_buy_time
is 5 and any instant before 6 is inside the window), a signal buy for a new
contract still goes through and mutates the balance from 90 to 80 — the
handle_input path never consults last_buy_time, so the claimed
portfolio-wide at-most-one-buy-per-window policy does not hold. -/
theorem C5_counterexample :
    stC5.last_buy_time = 5 ∧ (11/2 : ℚ) - stC5.last_buy_time < 1 ∧
    stC5.current_sol = 90 ∧
    (handleInputSignal ["X"] stC5 "B" MetricStr.na "N/A").2.current_sol = 80 ∧
    (80 : ℚ) ≠ 90 := by
  have hBX : "B" ≠ "X" := by decide
  refine ⟨?_, ?_, ?_, ?_, by norm_num⟩ <;>
    norm_num [stC5, stFresh, buyCmd, handleInputSignal, handleInputBuy,
      lookupKey, setKey, Option.elim, hBX]

/-- C5 amended: only the test-mode /buy command is rate limited — a /buy
issued while the session runs and within one time unit of last_buy_time is
rejected with no mutation at all; the signal-triggered buy path of
handle_input performs no rate-limit check. -/
theorem C5_rate_limit_amended (st : TestState) (t : ℚ)
    (hrun : st.running = true) (hwin : t - st.last_buy_time < 1) :
    buyCmd st t = st := by
  simp [buyCmd, hrun, hwin]

/-- C5 amended witness: on the state reached by the /buy at time 5, a /buy
retried at time five and a half is a no-op. -/
theorem C5_rate_limit_amended_witness :
    stC5.running = true ∧ (11/2 : ℚ) - stC5.last_buy_time < 1 ∧
    buyCmd stC5 (11/2) = stC5 :=
  ⟨by norm_num [stC5, stFresh, buyCmd, lookupKey, Option.elim],
   by norm_num [stC5, stFresh, buyCmd, lookupKey, Option.elim],
   C5_rate_limit_amended stC5 (11/2)
     (by norm_num [stC5, stFresh, buyCmd, lookupKey, Option.elim])
     (by norm_num [stC5, stFresh, buyCmd, lookupKey, Option.elim])⟩

/-! Claim C7: the locked-in invariant, part one, the counterexample. -/

/-- C7 counterexample: a first /buy at time 2 leaves the invariant intact,
but a second /buy at time 4 replaces the TOKEN position with the grown
amount 120 while crediting the full grown amount to in_positions on top of
the stale 30, leaving in_positions 150 against a position sum of 120. -/
theorem C7_counterexample :
    (buyCmd stFresh 2).in_positions = sumPos (buyCmd stFresh 2).positions ∧
    (buyCmd (buyCmd stFresh 2) 4).in_positions = 150 ∧
    sumPos (buyCmd (buyCmd stFresh 2) 4).positions = 120 ∧
    ¬ (buyCmd (buyCmd stFresh 2) 4).in_positions
        = sumPos (buyCmd (buyCmd stFresh 2) 4).positions := by
  refine ⟨?_, ?_, ?_, ?_⟩ <;>
    norm_num [stFresh, buyCmd, sumPos, lookupKey, setKey, Option.elim]

/-! Claim C6: ratchet monotonicity. -/

theorem engineRounds_of_none (ca : String) (obs : List (ℚ × ℚ)) (st : TestState)
    (h : lookupKey ca st.positions = none) : engineRounds st ca obs = st := by
  induction obs with
  | nil => rfl
  | cons ob rest ih =>
    simp only [engineRounds, h, Option.elim]
    exact ih

theorem engineEval_sold_step (st : TestState) (ca : String) (p : Position) (b c : ℚ)
    (hp : lookupKey ca st.positions = some p)
    (h0 : 0 ≤ p.sold) (h1 : p.sold ≤ p.amount) :
    lookupKey ca (engineEval st ca p b c).positions = none ∨
    ∃ q, lookupKey ca (engineEval st ca p b c).positions = some q ∧
      p.sold ≤ q.sold ∧ 0 ≤ q.sold ∧ q.sold ≤ q.amount := by
  by_cases hc : c < 50000
  · left
    simp [engineEval, hc, abandonUpdate, lookupKey_eraseKey_self]
  · rcases hft : firedTier (growthOf b c) p.sold p.amount with _ | t
    · right
      refine ⟨p, ?_, le_refl _, h0, h1⟩
      simp [engineEval, hc, hft, Option.elim, hp]
    · have hnn := sellAmount_nonneg p t (growthOf b c) h0 h1 hft
      by_cases hge : p.sold + sellAmount p t ≥ p.amount
      · left
        simp [engineEval, hc, hft, Option.elim, sellUpdate, hge, lookupKey_eraseKey_self]
      · right
        refine ⟨{ p with sold := p.sold + sellAmount p t }, ?_, ?_, ?_, ?_⟩
        · simp [engineEval, hc, hft, Option.elim, sellUpdate, hge, lookupKey_setKey_self]
        · show p.sold ≤ p.sold + sellAmount p t
          linarith
        · show (0 : ℚ) ≤ p.sold + sellAmount p t
          linarith
        · show p.sold + sellAmount p t ≤ p.amount
          push_neg at hge
          exact le_of_lt hge

theorem engineRounds_ratchet (ca : String) (obs : List (ℚ × ℚ)) :
    ∀ (st : TestState) (p : Position),
      lookupKey ca st.positions = some p → 0 ≤ p.sold → p.sold ≤ p.amount →
      ∀ q, lookupKey ca (engineRounds st ca obs).positions = some q →
        p.sold ≤ q.sold ∧ 0 ≤ q.sold ∧ q.sold ≤ q.amount := by
  induction obs with
  | nil =>
    intro st p hp h0 h1 q hq
    rw [engineRounds, hp] at hq
    injection hq with hq
    rw [← hq]
    exact ⟨le_refl _, h0, h1⟩
  | cons ob rest ih =>
    intro st p hp h0 h1 q hq
    rw [engineRounds, hp] at hq
    simp only [Option.elim] at hq
    rcases engineEval_sold_step st ca p ob.1 ob.2 hp h0 h1 with hnone |
      ⟨p2, hp2, hmono, h02, h12⟩
    · rw [engineRounds_of_none ca rest _ hnone] at hq
      rw [hq] at hnone
      exact absurd hnone (by simp)
    · have := ih (engineEval st ca p ob.1 ob.2) p2 hp2 h02 h12 q hq
      exact ⟨hmono.trans this.1, this.2.1, this.2.2⟩

/-- C6: over every sequence of engine rounds a surviving position's sold is
non-decreasing and stays between zero and amount, and a tier only fires
while the cumulative sold is still strictly below that tier's target
fraction of the amount — a tier at or below the reached fraction never
fires again. -/
theorem C6_ratchet (obs : List (ℚ × ℚ)) (st : TestState) (ca : String) (p : Position)
    (hp : lookupKey ca st.positions = some p)
    (h0 : 0 ≤ p.sold) (h1 : p.sold ≤ p.amount) :
    (∀ q, lookupKey ca (engineRounds st ca obs).positions = some q →
        p.sold ≤ q.sold ∧ 0 ≤ q.sold ∧ q.sold ≤ q.amount) ∧
    (∀ g s a t, firedTier g s a = some t → s < a * tierTarget t) :=
  ⟨engineRounds_ratchet ca obs st p hp h0 h1,
   fun g s a t h => firedTier_sold_lt g s a t h⟩

/-- The position for the C6 witness: scenario B before the round. -/
def pC6 : Position :=
  { buy_market_cap := some (MetricStr.num 50 Suffix.k), buy_price := none,
    amount := 100, sold := 0, ticker := some "T" }

/-- The portfolio holding pC6. -/
def stC6 : TestState :=
  { running := true, start_sol := 100, current_sol := 90, buy_amount := 10,
    in_positions := 100, positions := [("A", pC6)], last_buy_time := 0 }

/-- The position pC6 after one engine round at growth 3: half sold. -/
def qC6 : Position :=
  { buy_market_cap := some (MetricStr.num 50 Suffix.k), buy_price := none,
    amount := 100, sold := 50, ticker := some "T" }

/-- C6 witness: one round at growth 3 moves sold from 0 to 50, which is
non-decreasing and still between 0 and the amount. -/
theorem C6_ratchet_witness :
    lookupKey "A" stC6.positions = some pC6 ∧
    (0 : ℚ) ≤ pC6.sold ∧ pC6.sold ≤ pC6.amount ∧
    (pC6.sold ≤ qC6.sold ∧ 0 ≤ qC6.sold ∧ qC6.sold ≤ qC6.amount) :=
  ⟨by norm_num [stC6, pC6, lookupKey], by norm_num [pC6], by norm_num [pC6],
   (C6_ratchet [(50000, 150000)] stC6 "A" pC6
      (by norm_num [stC6, pC6, lookupKey]) (by norm_num [pC6])
      (by norm_num [pC6])).1 qC6
    (by norm_num [stC6, pC6, qC6, engineRounds, engineEval, sellUpdate,
      abandonUpdate, firedTier, growthOf, sellAmount, tierPercentage,
      lookupKey, setKey, eraseKey, Option.elim])⟩

/-! Claim C8: error handling in the periodic monitor pass. -/

theorem runPass_running (items : List (String × Position))
    (f : String → MetricStr × String) :
    ∀ st : TestState, (runPass st items f).1.running = st.running := by
  induction items with
  | nil => intro st; rfl
  | cons kv rest ih =>
    intro st
    obtain ⟨ca, p⟩ := kv
    by_cases hca : ca = "TOKEN"
    · simp only [runPass, hca, if_pos]
      exact ih st
    · rcases hb : p.buy_market_cap.bind parseAuto with _ | bought
      · simp [runPass, hca, hb, Option.elim]
      · by_cases hna : (f ca).1 = MetricStr.na
        · simp only [runPass, if_neg hca, hb, Option.elim, if_pos hna]
          exact ih st
        · rcases hcur : parseAuto (f ca).1 with _ | current
          · simp only [runPass, if_neg hca, hb, Option.elim, if_neg hna, hcur]
            exact ih st
          · simp only [runPass, if_neg hca, hb, Option.elim, if_neg hna, hcur]
            rw [ih (engineEval st ca p bought current)]
            exact engineEval_running st ca p bought current

/-- C8 amended: a fetched metric string that fails the conversion of
line 263 is caught by the inner handler and skips exactly that position —
the pass continues over the remaining positions with the state unchanged,
and no pass ever flips the running flag, so the loop keeps scheduling; a
stored buy_market_cap that fails the conversion of line 257, however, is
outside the inner handler, and for that failure the whole remainder of the
pass is abandoned (see the counterexample). -/
theorem C8_error_handling_amended (st : TestState) (f : String → MetricStr × String)
    (ca : String) (p : Position) (rest : List (String × Position)) (b : ℚ)
    (hca : ¬ ca = "TOKEN")
    (hb : p.buy_market_cap.bind parseAuto = some b)
    (hna : ¬ (f ca).1 = MetricStr.na)
    (hbad : parseAuto (f ca).1 = none) :
    runPass st ((ca, p) :: rest) f = runPass st rest f ∧
    (runPass st ((ca, p) :: rest) f).1.running = st.running := by
  have h1 : runPass st ((ca, p) :: rest) f = runPass st rest f := by
    simp only [runPass, if_neg hca, hb, Option.elim, if_neg hna, hbad]
  exact ⟨h1, by rw [h1, runPass_running]⟩

/-- A position whose stored buy reference parses fine, used with a
malformed fetched metric for the C8 witness. -/
def pC8w : Position :=
  { buy_market_cap := some (MetricStr.num 50 Suffix.k), buy_price := none,
    amount := 100, sold := 0, ticker := some "T" }

/-- A portfolio holding only pC8w. -/
def stC8w : TestState :=
  { running := true, start_sol := 100, current_sol := 90, buy_amount := 10,
    in_positions := 100, positions := [("A", pC8w)], last_buy_time := 0 }

/-- A fetch answering every contract with an unconvertible string. -/
def fC8w : String → MetricStr × String := fun _ => (MetricStr.malformed "??,?", "T")

/-- C8 amended witness: with a garbage fetched metric the position is
skipped, the pass over the singleton list equals the empty pass, and
running is preserved. -/
theorem C8_error_handling_amended_witness :
    ¬ "A" = "TOKEN" ∧
    pC8w.buy_market_cap.bind parseAuto = some 50000 ∧
    ¬ (fC8w "A").1 = MetricStr.na ∧
    parseAuto (fC8w "A").1 = none ∧
    (runPass stC8w [("A", pC8w)] fC8w = runPass stC8w [] fC8w ∧
     (runPass stC8w [("A", pC8w)] fC8w).1.running = stC8w.running) :=
  ⟨by decide, by norm_num [pC8w, parseAuto, suffixMult, Option.bind],
   by simp [fC8w], by simp [fC8w, parseAuto],
   C8_error_handling_amended stC8w fC8w "A" pC8w [] 50000 (by decide)
     (by norm_num [pC8w, parseAuto, suffixMult, Option.bind])
     (by simp [fC8w]) (by simp [fC8w, parseAuto])⟩

/-- A position whose stored buy reference is the sentinel, which line 257
cannot convert. -/
def pC8A : Position :=
  { buy_market_cap := some MetricStr.na, buy_price := none,
    amount := 99, sold := 0, ticker := some "TA" }

/-- A healthy position listed after pC8A. -/
def pC8B : Position :=
  { buy_market_cap := some (MetricStr.num 50 Suffix.k), buy_price := none,
    amount := 100, sold := 0, ticker := some "TB" }

/-- A portfolio holding pC8A and then pC8B. -/
def stC8 : TestState :=
  { running := true, start_sol := 300, current_sol := 100, buy_amount := 10,
    in_positions := 199, positions := [("A", pC8A), ("B", pC8B)], last_buy_time := 0 }

/-- A fetch answering every contract with the healthy metric 500k. -/
def fC8 : String → MetricStr × String := fun _ => (MetricStr.num 500 Suffix.k, "T")

/-- C8 counterexample: position A stores the unconvertible buy reference
N/A, so line 257 raises before the inner handler and the outer handler ends
the pass: the following position B is never evaluated in that round (the
pass returns the state unchanged and records no evaluation), even though
evaluating B directly would have fired the 3x tier and moved its sold to
50 — contradicting the claim that a malformed stored metric skips only the
offending position. -/
theorem C8_counterexample :
    (runPass stC8 stC8.positions fC8).1 = stC8 ∧
    (runPass stC8 stC8.positions fC8).2 = [] ∧
    lookupKey "B" (engineEval stC8 "B" pC8B 50000 500000).positions
      = some { pC8B with sold := 50 } := by
  have hAT : ¬ "A" = "TOKEN" := by decide
  have hBT : ¬ "B" = "TOKEN" := by decide
  have hAB : ¬ "A" = "B" := by decide
  refine ⟨?_, ?_, ?_⟩ <;>
    norm_num [stC8, pC8A, pC8B, fC8, runPass, engineEval, sellUpdate,
      abandonUpdate, firedTier, growthOf, sellAmount, tierPercentage,
      lookupKey, setKey, eraseKey, parseAuto, suffixMult, Option.elim, Option.bind,
      hAT, hBT, hAB]

/-! Claim C7: the locked-in invariant, part two, preservation lemmas. -/

theorem lookupKey_eq_none_of_all_ne (k : String) (t : List (String × Position))
    (h : ∀ kv ∈ t, kv.1 ≠ k) : lookupKey k t = none := by
  induction t with
  | nil => rfl
  | cons kv r ih =>
    rw [lookupKey, if_neg (h kv (List.mem_cons_self kv r))]
    exact ih (fun b hb => h b (List.mem_cons_of_mem kv hb))

theorem eraseKey_of_none (k : String) (l : List (String × Position))
    (h : lookupKey k l = none) : eraseKey k l = l := by
  induction l with
  | nil => rfl
  | cons kv t ih =>
    rw [lookupKey] at h
    by_cases hk : kv.1 = k
    · rw [if_pos hk] at h
      exact absurd h (by simp)
    · rw [if_neg hk] at h
      rw [eraseKey, if_neg hk, ih h]

theorem sumPos_cons (kv : String × Position) (t : List (String × Position)) :
    sumPos (kv :: t) = (kv.2.amount - kv.2.sold) + sumPos t := by
  simp [sumPos]

theorem sumPos_eraseKey (k : String) (p : Position) (l : List (String × Position))
    (h : lookupKey k l = some p) (hnd : nodupKeys l) :
    sumPos (eraseKey k l) = sumPos l - (p.amount - p.sold) := by
  induction l with
  | nil => simp [lookupKey] at h
  | cons kv t ih =>
    rw [nodupKeys, List.pairwise_cons] at hnd
    by_cases hk : kv.1 = k
    · rw [lookupKey, if_pos hk] at h
      injection h with h2
      have ht : lookupKey k t = none := by
        apply lookupKey_eq_none_of_all_ne
        intro b hb he
        exact hnd.1 b hb (hk.trans he.symm)
      rw [eraseKey, if_pos hk, eraseKey_of_none k t ht, sumPos_cons, h2]
      ring
    · rw [lookupKey, if_neg hk] at h
      rw [eraseKey, if_neg hk, sumPos_cons, sumPos_cons, ih h hnd.2]
      ring

theorem sumPos_setKey_some (k : String) (p v : Position) (l : List (String × Position))
    (h : lookupKey k l = some p) (hnd : nodupKeys l) :
    sumPos (setKey k v l) = sumPos l - (p.amount - p.sold) + (v.amount - v.sold) := by
  induction l with
  | nil => simp [lookupKey] at h
  | cons kv t ih =>
    rw [nodupKeys, List.pairwise_cons] at hnd
    by_cases hk : kv.1 = k
    · rw [lookupKey, if_pos hk] at h
      injection h with h2
      rw [setKey, if_pos hk, sumPos_cons, sumPos_cons, h2]
      ring
    · rw [lookupKey, if_neg hk] at h
      rw [setKey, if_neg hk, sumPos_cons, sumPos_cons, ih h hnd.2]
      ring

theorem sumPos_setKey_none (k : String) (v : Position) (l : List (String × Position))
    (h : lookupKey k l = none) :
    sumPos (setKey k v l) = sumPos l + (v.amount - v.sold) := by
  induction l with
  | nil => simp [setKey, sumPos]
  | cons kv t ih =>
    rw [lookupKey] at h
    by_cases hk : kv.1 = k
    · rw [if_pos hk] at h
      exact absurd h (by simp)
    · rw [if_neg hk] at h
      rw [setKey, if_neg hk, sumPos_cons, sumPos_cons, ih h]
      ring

/-- C7 amended: on a portfolio whose in_positions already equals the sum of
amount minus sold over the open positions, the signal buy (for a contract
not yet held), every engine evaluation (abandonment, partial sell or
liquidation), the test-mode /sell, and a test-mode /buy made while no TOKEN
position exists all preserve that equality; a test-mode /buy made while a
TOKEN position already exists does not (see the counterexample). -/
theorem C7_invariant_amended (st : TestState)
    (hinv : st.in_positions = sumPos st.positions)
    (hnd : nodupKeys st.positions) :
    (∀ ca m tk, lookupKey ca st.positions = none →
        (handleInputBuy st ca m tk).in_positions
          = sumPos (handleInputBuy st ca m tk).positions) ∧
    (∀ ca p b c, lookupKey ca st.positions = some p → 0 ≤ p.sold →
        (engineEval st ca p b c).in_positions
          = sumPos (engineEval st ca p b c).positions) ∧
    ((sellCmd st).in_positions = sumPos (sellCmd st).positions) ∧
    (∀ tm, lookupKey "TOKEN" st.positions = none →
        (buyCmd st tm).in_positions = sumPos (buyCmd st tm).positions) := by
  refine ⟨?_, ?_, ?_, ?_⟩
  · intro ca m tk hca
    by_cases hrun : st.running = true
    · by_cases hbal : st.buy_amount ≤ st.current_sol
      · rw [handleInputBuy, if_pos hrun, if_pos hbal]
        show st.in_positions + (st.buy_amount - st.buy_amount * (1/100))
            = sumPos (setKey ca
                { buy_market_cap := some m, buy_price := none,
                  amount := st.buy_amount - st.buy_amount * (1/100), sold := 0,
                  ticker := some tk } st.positions)
        rw [sumPos_setKey_none ca _ st.positions hca, hinv]
        show sumPos st.positions + (st.buy_amount - st.buy_amount * (1/100))
            = sumPos st.positions + ((st.buy_amount - st.buy_amount * (1/100)) - 0)
        ring
      · rw [handleInputBuy, if_pos hrun, if_neg hbal]
        exact hinv
    · rw [handleInputBuy, if_neg hrun]
      exact hinv
  · intro ca p b c hp hs0
    by_cases hc : c < 50000
    · rw [engineEval, if_pos hc, abandonUpdate]
      show st.in_positions - (p.amount - p.sold) = sumPos (eraseKey ca st.positions)
      rw [sumPos_eraseKey ca p st.positions hp hnd, hinv]
    · rcases hft : firedTier (growthOf b c) p.sold p.amount with _ | t
      · rw [engineEval, if_neg hc, hft]
        exact hinv
      · rw [engineEval, if_neg hc, hft]
        show (sellUpdate st ca p (growthOf b c) t).in_positions
            = sumPos (sellUpdate st ca p (growthOf b c) t).positions
        by_cases hge : p.sold + sellAmount p t ≥ p.amount
        · have hsell : sellAmount p t = p.amount - p.sold := by
            rcases t with _ | _ | _
            · exfalso
              obtain ⟨-, h2⟩ := firedTier_t3_inv _ _ _ hft
              simp only [sellAmount, tierPercentage] at hge
              linarith
            · exfalso
              obtain ⟨-, -, h2⟩ := firedTier_t5_inv _ _ _ hft
              simp only [sellAmount, tierPercentage] at hge
              linarith
            · obtain ⟨-, -, -, hlt⟩ := firedTier_t10_inv _ _ _ hft
              exact sellAmount_t10 p (ne_of_gt (lt_of_le_of_lt hs0 hlt))
          rw [sellUpdate, if_pos hge]
          show st.in_positions - sellAmount p t = sumPos (eraseKey ca st.positions)
          rw [sumPos_eraseKey ca p st.positions hp hnd, hinv, hsell]
        · rw [sellUpdate, if_neg hge]
          show st.in_positions - sellAmount p t
              = sumPos (setKey ca { p with sold := p.sold + sellAmount p t } st.positions)
          rw [sumPos_setKey_some ca p _ st.positions hp hnd, hinv]
          show sumPos st.positions - sellAmount p t
              = sumPos st.positions - (p.amount - p.sold)
                + (p.amount - (p.sold + sellAmount p t))
          ring
  · by_cases hrun : st.running = true
    · rcases hT : lookupKey "TOKEN" st.positions with _ | p
      · rw [sellCmd, if_pos hrun, hT]
        exact hinv
      · rw [sellCmd, if_pos hrun, hT]
        show st.in_positions - (p.amount - p.sold) = sumPos (eraseKey "TOKEN" st.positions)
        rw [sumPos_eraseKey "TOKEN" p st.positions hT hnd, hinv]
    · rw [sellCmd, if_neg hrun]
      exact hinv
  · intro tm hT
    by_cases hrun : st.running = true
    · by_cases hrl : tm - st.last_buy_time < 1
      · rw [buyCmd, if_pos hrun, if_pos hrl]
        exact hinv
      · by_cases hbal : st.buy_amount ≤ st.current_sol
        · rw [buyCmd, if_pos hrun, if_neg hrl, if_pos hbal, hT]
          show st.in_positions + st.buy_amount * 3
              = sumPos (setKey "TOKEN"
                  { buy_market_cap := none, buy_price := some 1,
                    amount := st.buy_amount * 3, sold := 0, ticker := none } st.positions)
          rw [sumPos_setKey_none "TOKEN" _ st.positions hT, hinv]
          show sumPos st.positions + st.buy_amount * 3
              = sumPos st.positions + (st.buy_amount * 3 - 0)
          ring
        · rw [buyCmd, if_pos hrun, if_neg hrl, if_neg hbal]
          exact hinv
    · rw [buyCmd, if_neg hrun]
      exact hinv

/-- C7 amended witness: on the fresh empty portfolio the invariant holds and
is preserved by a signal buy. -/
theorem C7_invariant_amended_witness :
    stFresh.in_positions = sumPos stFresh.positions ∧
    (handleInputBuy stFresh "A" MetricStr.na "N/A").in_positions
      = sumPos (handleInputBuy stFresh "A" MetricStr.na "N/A").positions :=
  ⟨rfl, (C7_invariant_amended stFresh rfl List.Pairwise.nil).1 "A" MetricStr.na "N/A" rfl⟩

end Bot
